import Mathlib

/-!
Shallow embedding of the git2-rs demo repository core (src/main.rs) together
with the git core operations it drives (object store, index, references,
working-tree synchronizer), and proofs settling the frozen claims about it.

The Rust functions in src/main.rs are thin wrappers over the libgit2 bindings;
the library-side behaviour (object store, reference resolution, checkout) is
the "core" that the specification describes, so those parts are modelled from
the spec (sections 3, 4.1-4.7) and from the documented libgit2 contracts the
wrappers rely on.  Every wrapper function keeps its Rust name.
-/

deriving instance DecidableEq for Except

namespace GitDemo

/-- Object identity.  Content addressing is modelled by a perfect digest: a
blob's identity carries its canonical content, so identical content yields
identical identity and distinct content yields distinct identity (spec section 3,
content-addressing invariant).  Opaque identities used in concrete scenarios
are `num`; tree and commit digests are packed into `treeNum` / `commitNum`. -/
inductive Oid where
  | num (n : Nat)
  | blobId (content : String)
  | treeNum (n : Nat)
  | commitNum (n : Nat)
  deriving DecidableEq, Repr

/-- Kind tag of a tree entry (spec section 3, Tree Entry); `commitlink` stands for
the submodule/commit entries that the traversal callback in the source skips. -/
inductive TEntryKind where
  | blob
  | tree
  | commitlink
  deriving DecidableEq, Repr

/-- A tree object: named entries `(name, kind, entry identity)` in their stored
(canonically sorted) order (spec section 3, Tree). -/
structure TreeObj where
  entries : List (String × TEntryKind × Oid)
  deriving DecidableEq, Repr

/-- A commit object: tree, ordered parents, message (spec section 3, Commit;
author/committer metadata is carried by the repository config and does not
enter any claim). -/
structure CommitObj where
  tree : Oid
  parents : List Oid
  message : String
  deriving DecidableEq, Repr

/-- A stored object.  `corrupted` models an object body that is present but
unreadable, used to distinguish genuine store errors from absence
(spec section 4.7). -/
inductive StoreObj where
  | blob (content : String)
  | tree (t : TreeObj)
  | commit (c : CommitObj)
  | corrupted
  deriving DecidableEq, Repr

/-- The content-addressed object store (spec section 4.1), as an association
list keyed by identity. -/
abbrev Store := List (Oid × StoreObj)

/-- Error kinds surfaced by the modelled operations (spec section 7). -/
inductive GitError where
  | notFound
  | unborn
  | corruptObject
  | invalidObject
  | missingSignature
  | fuelExhausted
  deriving DecidableEq, Repr

/-- The HEAD reference: symbolic to a branch name, or detached at a commit
(spec section 3, Reference). -/
inductive HeadRef where
  | symbolic (branch : String)
  | detached (oid : Oid)
  deriving DecidableEq, Repr

/-- Kind of a git reference as seen through the bindings. -/
inductive RefKind where
  | symbolic
  | direct
  deriving DecidableEq, Repr

/-- A reference value as returned by the bindings: full name, kind and target. -/
structure GitReference where
  name : String
  kind : RefKind
  target : Oid
  deriving DecidableEq, Repr

/-- The repository state threaded through every wrapper in src/main.rs:
object store, branch references (`refs/heads/<name>`), HEAD, the index
(path to blob identity), the working tree (path to content), the config
key/value table, and the set of ignored paths used by the checkout
deletion policy (spec sections 2 and 3). -/
structure Repository where
  store : Store
  branches : List (String × Oid)
  head : HeadRef
  index : List (String × Oid)
  workdir : List (String × String)
  cfg : List (String × String)
  ignoredPaths : List String
  deriving DecidableEq, Repr

/-- The record pushed by the traversal and lookup wrappers
(struct `TreeEntry` in src/main.rs, lines 313-319). -/
structure TreeEntry where
  relative_path : String
  oid : Oid
  kind : TEntryKind
  deriving DecidableEq, Repr

/-- Lookup in an association list (first match wins). -/
def alookup {κ α : Type} [DecidableEq κ] : List (κ × α) → κ → Option α
  | [], _ => none
  | (k2, v) :: rest, k => if k2 = k then some v else alookup rest k

/-- Upsert into an association list: replace the first binding of the key,
or append a new binding. -/
def aupdate {κ α : Type} [DecidableEq κ] : List (κ × α) → κ → α → List (κ × α)
  | [], k, v => [(k, v)]
  | (k2, v2) :: rest, k, v =>
    if k2 = k then (k, v) :: rest else (k2, v2) :: aupdate rest k v

/-- Remove every binding of a key from an association list. -/
def aremove {κ α : Type} [DecidableEq κ] : List (κ × α) → κ → List (κ × α)
  | [], _ => []
  | (k2, v2) :: rest, k =>
    if k2 = k then aremove rest k else (k2, v2) :: aremove rest k

/-- `get(identity)` on the object store (spec section 4.1). -/
def storeLookup (s : Store) (oid : Oid) : Option StoreObj := alookup s oid

/-- `put` on the object store (spec section 4.1): idempotent, storing identical
content twice keeps the single existing object. -/
def putObj (s : Store) (oid : Oid) (obj : StoreObj) : Store :=
  match storeLookup s oid with
  | some _ => s
  | none => (oid, obj) :: s

/-- Injection of a string into the naturals, base 1114112 over its scalar
values; used when packing digests. -/
def encodeStr (s : String) : Nat :=
  s.data.foldl (fun acc c => acc * 1114112 + c.toNat + 1) 0

/-- Blob identity: the digest of the blob content (spec section 3); modelled as a
perfect hash via the `blobId` constructor. -/
def blobOid (content : String) : Oid := .blobId content

/-- Cantor pairing, used to pack digest components. -/
def pairN (a b : Nat) : Nat := (a + b) * (a + b + 1) / 2 + b

/-- Numeric packing of an identity, used inside tree and commit digests. -/
def encodeOid : Oid → Nat
  | .num n => 4 * n
  | .blobId s => 4 * encodeStr s + 1
  | .treeNum n => 4 * n + 2
  | .commitNum n => 4 * n + 3

/-- Numeric packing of an identity list. -/
def encodeOidList (l : List Oid) : Nat :=
  l.foldl (fun acc o => pairN acc (encodeOid o) + 1) 0

/-- Digest of an index snapshot, used as the identity of the tree built from
it (spec section 4.3: deterministic in the snapshot). -/
def indexTreeOid (idx : List (String × Oid)) : Oid :=
  .treeNum (idx.foldl (fun acc e => pairN (pairN acc (encodeStr e.1)) (encodeOid e.2) + 1) 0)

/-- Commit identity: digest over tree, parents and message (spec section 3). -/
def commitOid (c : CommitObj) : Oid :=
  .commitNum (pairN (encodeOid c.tree) (pairN (encodeOidList c.parents) (encodeStr c.message)))

/-- Modelled from the spec: reference resolution (section 4.4 `resolve`) as
performed by the bindings' `Repository::head()`, which follows the symbolic
HEAD transitively and hands back the already resolved direct reference
(`refs/heads/<branch>` with its target when HEAD is on a branch, the direct
HEAD itself when detached), failing when HEAD points at an unborn branch.
The source is the caller of this operation; its body lives in the git
library, not under src/. -/
def Repository.headRef (r : Repository) : Except GitError GitReference :=
  match r.head with
  | .symbolic b =>
    match alookup r.branches b with
    | some oid => .ok ⟨"refs/heads/" ++ b, .direct, oid⟩
    | none => .error .unborn
  | .detached oid => .ok ⟨"HEAD", .direct, oid⟩

/-- The identity HEAD currently resolves to, if any (spec glossary, HEAD). -/
def resolveHead (r : Repository) : Option Oid :=
  match r.headRef with
  | .ok ref => some ref.target
  | .error _ => none

/-- Modelled from the spec: `find_commit` (section 4.1 `get` specialised to
commits): fails with `NotFound` when absent and with an invalid-object error
when the identity names a non-commit object. -/
def findCommit (r : Repository) (oid : Oid) : Except GitError CommitObj :=
  match storeLookup r.store oid with
  | some (.commit c) => .ok c
  | some _ => .error .invalidObject
  | none => .error .notFound

/-- The commit-argument resolution block shared verbatim by the traversal,
lookup and tag/branch wrappers in src/main.rs: use the given identity, or
fall back to the commit HEAD resolves to. -/
def resolveCommitOpt (r : Repository) : Option Oid → Except GitError CommitObj
  | some oid => findCommit r oid
  | none =>
    match r.headRef with
    | .ok href => findCommit r href.target
    | .error e => .error e

/-- `config_git_repo_kv_str` (src/main.rs, lines 24-51): read the current
value; when it is absent or differs from the requested value, write and
report `true`, otherwise skip the write and report `false`. -/
def config_git_repo_kv_str (cfg : List (String × String)) (name value : String) :
    List (String × String) × Bool :=
  let needUpdate : Bool :=
    match alookup cfg name with
    | some oldValue => oldValue != value
    | none => true
  if needUpdate then (aupdate cfg name value, true) else (cfg, false)

/-- `config_git_repo_user` (src/main.rs, lines 53-67): set `user.name` and
`user.email` through `config_git_repo_kv_str`; reports whether either write
happened. -/
def config_git_repo_user (r : Repository) (name email : String) : Repository × Bool :=
  let p1 := config_git_repo_kv_str r.cfg "user.name" name
  let p2 := config_git_repo_kv_str p1.1 "user.email" email
  ({ r with cfg := p2.1 }, p1.2 || p2.2)

/-- Abstract state of the target directory for `open_or_init_git_repo`:
whether the path exists, whether it holds a `.git` subdirectory, and an
abstract count of the files in its tree. -/
structure DirState where
  present : Bool
  hasGit : Bool
  fileCount : Nat
  deriving DecidableEq, Repr

/-- What `open_or_init_git_repo` did: opened an existing repository, or
initialized a fresh one with the recorded initial head. -/
inductive OpenAction where
  | opened
  | freshInit (initialHead : String)
  deriving DecidableEq, Repr

/-- `open_or_init_git_repo` (src/main.rs, lines 6-22): when `dir/.git` exists,
open the repository without touching the directory; otherwise delete the whole
existing directory tree (when present), recreate it and initialize a
repository with initial head "main". -/
def open_or_init_git_repo (d : DirState) : DirState × OpenAction :=
  if d.hasGit then (d, .opened)
  else
    ({ present := true, hasGit := true, fileCount := 0 }, .freshInit "main")

/-- One iteration of the staging loop in `add_files_to_git_repo_index`
(src/main.rs, lines 76-89): when the path exists in the working tree, compute
the blob identity of its content, store the blob if new (`index.add_path`)
and upsert the index entry; when it does not exist, remove any existing index
entry, silently ignoring the error that `index.remove_path` raises for a path
that was never staged. -/
def stageOne (r : Repository) (p : String) : Repository :=
  match alookup r.workdir p with
  | some content =>
    { r with
      store := putObj r.store (blobOid content) (.blob content),
      index := aupdate r.index p (blobOid content) }
  | none =>
    match alookup r.index p with
    | some _ => { r with index := aremove r.index p }
    | none => r

/-- `add_files_to_git_repo_index` (src/main.rs, lines 69-92): stage each given
relative path in order, then write the index.  The operation is total: a path
that is absent both from disk and from the index leaves the state unchanged
and the call still succeeds. -/
def add_files_to_git_repo_index (r : Repository) : List String → Repository
  | [] => r
  | p :: rest => add_files_to_git_repo_index (stageOne r p) rest

/-- Modelled from the spec: `index.write_tree()` (section 4.3 Tree Builder),
whose body lives in the git library.  The hierarchical grouping is abstracted
to a deterministic digest of the index snapshot together with a stored
manifest tree listing the staged paths as blob entries; no claim inspects the
shape of the built tree, only the identity and its determinism. -/
def writeIndexTree (r : Repository) : Oid × Store :=
  let t : TreeObj := ⟨r.index.map (fun e => (e.1, TEntryKind.blob, e.2))⟩
  let oid := indexTreeOid r.index
  (oid, putObj r.store oid (.tree t))

/-- `commit_index_to_git_repo` (src/main.rs, lines 94-128): build the tree from
the index, require a signature (`user.name`/`user.email` in the config),
resolve HEAD to find the zero-or-one parent (no parent exactly when HEAD is
unresolvable; an error finding the resolved commit propagates), store the new
commit and advance the reference HEAD resolves to (the current branch when
HEAD is symbolic, HEAD itself when detached — the bindings' update of the
`"HEAD"` ref). -/
def commit_index_to_git_repo (r : Repository) (message : String) :
    Except GitError (Oid × Repository) :=
  let tp := writeIndexTree r
  match storeLookup tp.2 tp.1 with
  | some (.tree _) =>
    match alookup r.cfg "user.name", alookup r.cfg "user.email" with
    | some _, some _ =>
      let parentRes : Except GitError (Option Oid) :=
        match r.headRef with
        | .ok href =>
          (match storeLookup tp.2 href.target with
           | some (.commit _) => .ok (some href.target)
           | some _ => .error .invalidObject
           | none => .error .notFound)
        | .error _ => .ok none
      match parentRes with
      | .error e => .error e
      | .ok parentOpt =>
        let parents := match parentOpt with
          | some p => [p]
          | none => []
        let c : CommitObj := ⟨tp.1, parents, message⟩
        let cid := commitOid c
        let store2 := putObj tp.2 cid (.commit c)
        match r.head with
        | .symbolic b =>
          .ok (cid, { r with store := store2, branches := aupdate r.branches b cid })
        | .detached _ =>
          .ok (cid, { r with store := store2, head := .detached cid })
    | _, _ => .error .missingSignature
  | _ => .error .invalidObject

/-- Modelled from the spec: recursive expansion of a tree into the flat
path-to-blob-identity mapping (section 4.2 `load_from_tree`), used by
`index.read_tree`.  `fuel` bounds the descent depth; the library recursion is
unbounded and the claims quantify over sufficient fuel. -/
def flattenTreeOids (store : Store) : Nat → String → List (String × TEntryKind × Oid) →
    Except GitError (List (String × Oid))
  | 0, _, _ => .error .fuelExhausted
  | _ + 1, _, [] => .ok []
  | fuel + 1, pre, (name, kind, oid) :: rest =>
    match kind with
    | .blob =>
      match flattenTreeOids store fuel pre rest with
      | .ok tl => .ok ((pre ++ name, oid) :: tl)
      | .error e => .error e
    | .commitlink => flattenTreeOids store fuel pre rest
    | .tree =>
      match storeLookup store oid with
      | some (.tree sub) =>
        match flattenTreeOids store fuel (pre ++ name ++ "/") sub.entries with
        | .error e => .error e
        | .ok subList =>
          match flattenTreeOids store fuel pre rest with
          | .error e => .error e
          | .ok tl => .ok (subList ++ tl)
      | some _ => .error .corruptObject
      | none => .error .notFound

/-- Modelled from the spec: expansion of a tree into the flat path-to-content
mapping materialized by the synchronizer (section 4.6 step 1); blob bodies are
read from the store and a missing or unreadable object is a genuine store
error. -/
def flattenTreeContent (store : Store) : Nat → String → List (String × TEntryKind × Oid) →
    Except GitError (List (String × String))
  | 0, _, _ => .error .fuelExhausted
  | _ + 1, _, [] => .ok []
  | fuel + 1, pre, (name, kind, oid) :: rest =>
    match kind with
    | .blob =>
      match storeLookup store oid with
      | some (.blob content) =>
        match flattenTreeContent store fuel pre rest with
        | .ok tl => .ok ((pre ++ name, content) :: tl)
        | .error e => .error e
      | some _ => .error .corruptObject
      | none => .error .notFound
    | .commitlink => flattenTreeContent store fuel pre rest
    | .tree =>
      match storeLookup store oid with
      | some (.tree sub) =>
        match flattenTreeContent store fuel (pre ++ name ++ "/") sub.entries with
        | .error e => .error e
        | .ok subList =>
          match flattenTreeContent store fuel pre rest with
          | .error e => .error e
          | .ok tl => .ok (subList ++ tl)
      | some _ => .error .corruptObject
      | none => .error .notFound

/-- Deletion policy of the forced working-tree sync (spec section 4.6 step 3)
for a path on disk that is absent from the target mapping: a tracked path
(present in the index baseline) is deleted by the forced sync; an untracked
path is deleted only under `remove_untracked` unless it is ignored; an ignored
path is deleted only under `remove_ignored`. -/
def wdKeep (r : Repository) (targetPaths : List String)
    (removeUntracked removeIgnored : Bool) (p : String) : Bool :=
  if targetPaths.contains p then false
  else if (alookup r.index p).isSome then false
  else if r.ignoredPaths.contains p then !removeIgnored
  else !removeUntracked

/-- Modelled from the spec: the working-tree synchronizer
`checkout_tree(force, remove_untracked, remove_ignored)` (section 4.6): expand
the target tree, write every target path unconditionally (force), and apply
the deletion policy to the remaining paths on disk.  Index stat refreshing
performed incidentally by the library is outside the spec's contract and is
not modelled: only the filesystem is reconciled. -/
def checkout_tree (fuel : Nat) (r : Repository) (t : TreeObj)
    (removeUntracked removeIgnored : Bool) : Except GitError Repository :=
  match flattenTreeContent r.store fuel "" t.entries with
  | .error e => .error e
  | .ok target =>
    let tpaths := target.map (fun e => e.1)
    .ok { r with
          workdir := target ++
            r.workdir.filter (fun e => wdKeep r tpaths removeUntracked removeIgnored e.1) }

/-- `switch_git_repo_branch` (src/main.rs, lines 208-246): require the branch
reference to exist, point HEAD at it symbolically, and when `update_workdir`
is set, check out the tree of the commit HEAD now resolves to with force and
`remove_untracked(true)`; finally return the branch reference. -/
def switch_git_repo_branch (fuel : Nat) (r : Repository) (branch : String)
    (updateWorkdir : Bool) : Except GitError (GitReference × Repository) :=
  match alookup r.branches branch with
  | none => .error .notFound
  | some _ =>
    let r1 := { r with head := HeadRef.symbolic branch }
    if updateWorkdir then
      match r1.headRef with
      | .error e => .error e
      | .ok href =>
        match storeLookup r1.store href.target with
        | some (.commit c) =>
          match storeLookup r1.store c.tree with
          | some (.tree t) =>
            match checkout_tree fuel r1 t true false with
            | .error e => .error e
            | .ok r2 =>
              match alookup r2.branches branch with
              | some oid => .ok (⟨"refs/heads/" ++ branch, .direct, oid⟩, r2)
              | none => .error .notFound
          | some _ => .error .invalidObject
          | none => .error .notFound
        | some _ => .error .invalidObject
        | none => .error .notFound
    else
      match alookup r1.branches branch with
      | some oid => .ok (⟨"refs/heads/" ++ branch, .direct, oid⟩, r1)
      | none => .error .notFound

/-- `reset_git_repo_head` (src/main.rs, lines 248-294): find the target commit
and its tree; obtain `repo.head()` — per the modelled binding this is the
already resolved direct reference — and match on its kind: the Symbolic arm
(which would move the named reference to the target) versus the Direct arm
(which detaches HEAD at the target); then rewrite the index from the target
tree and sync the working tree with force, `remove_untracked(true)` and
`remove_ignored(false)`. -/
def reset_git_repo_head (fuel : Nat) (r : Repository) (target : Oid) :
    Except GitError Repository :=
  match storeLookup r.store target with
  | some (.commit c) =>
    match storeLookup r.store c.tree with
    | some (.tree t) =>
      match r.headRef with
      | .error e => .error e
      | .ok href =>
        let r1 :=
          match href.kind with
          | .symbolic =>
            if href.name.startsWith "refs/heads/" then
              { r with branches := aupdate r.branches (href.name.drop 11) target }
            else
              { r with head := HeadRef.detached target }
          | .direct => { r with head := HeadRef.detached target }
        match flattenTreeOids r1.store fuel "" t.entries with
        | .error e => .error e
        | .ok idxEntries =>
          checkout_tree fuel { r1 with index := idxEntries } t true false
    | some _ => .error .invalidObject
    | none => .error .notFound
  | some _ => .error .invalidObject
  | none => .error .notFound

/-- `restore_git_repo_head_to_workdir` (src/main.rs, lines 404-430): peel HEAD
to its commit, take that commit's tree, and check the working tree out to it
with force, `remove_untracked(true)` and `remove_ignored(false)`; no reference
is touched. -/
def restore_git_repo_head_to_workdir (fuel : Nat) (r : Repository) :
    Except GitError Repository :=
  match r.headRef with
  | .error e => .error e
  | .ok href =>
    match storeLookup r.store href.target with
    | some (.commit c) =>
      match storeLookup r.store c.tree with
      | some (.tree t) => checkout_tree fuel r t true false
      | some _ => .error .invalidObject
      | none => .error .notFound
    | some _ => .error .invalidObject
    | none => .error .notFound

/-- Splitting a character list on `/`, accumulating the current segment in
reverse. -/
def splitSegs : List Char → List Char → List String
  | [], acc => [String.mk acc.reverse]
  | c :: rest, acc =>
    if c = '/' then String.mk acc.reverse :: splitSegs rest []
    else splitSegs rest (c :: acc)

/-- Path splitting on `/`, the segment decomposition used by the path lookup. -/
def splitPath (p : String) : List String := splitSegs p.data []

/-- Modelled from the spec: `tree.get_path` (section 4.7 `lookup`), descending
one segment at a time.  An absent segment, or a non-tree entry met before the
final segment, is a `notFound` error (the library's ENOTFOUND return); a
subtree object that is present in the store but unreadable is a
`corruptObject` error; a subtree object missing from the store is `notFound`. -/
def treeGetPath (store : Store) : TreeObj → List String →
    Except GitError (TEntryKind × Oid)
  | _, [] => .error .notFound
  | t, [s] =>
    match alookup t.entries s with
    | some ko => .ok ko
    | none => .error .notFound
  | t, s :: rest =>
    match alookup t.entries s with
    | none => .error .notFound
    | some (.tree, oid) =>
      match storeLookup store oid with
      | some (.tree sub) => treeGetPath store sub rest
      | some _ => .error .corruptObject
      | none => .error .notFound
    | some (_, _) => .error .notFound

/-- `lookup_entry_from_git_repo_commit_tree_by_path` (src/main.rs, lines
359-389): resolve the commit (argument or HEAD), take its tree, and run
`get_path`; a successful descent yields the entry with the queried path
recorded in full, and any error from the descent — the source's
`Err(_) => Ok(None)` arm — is mapped to the empty result. -/
def lookup_entry_from_git_repo_commit_tree_by_path (r : Repository)
    (commitId : Option Oid) (targetPath : String) :
    Except GitError (Option TreeEntry) :=
  match resolveCommitOpt r commitId with
  | .error e => .error e
  | .ok c =>
    match storeLookup r.store c.tree with
    | some (.tree t) =>
      match treeGetPath r.store t (splitPath targetPath) with
      | .ok ko => .ok (some ⟨targetPath, ko.2, ko.1⟩)
      | .error _ => .ok none
    | some _ => .error .invalidObject
    | none => .error .notFound

/-- Modelled from the spec: the bindings' pre-order `tree.walk` driving the
recorder callback of `traverse_git_repo_commit_tree_recorder` (src/main.rs,
lines 341-354).  Entries are visited in their stored (canonically sorted)
order; the callback records `entry.name()` — the entry's own name segment
only, the root prefix argument being discarded by the source — and skips
entries that are neither blobs nor trees.  `fuel` bounds the total number of
steps. -/
def walkGo (store : Store) : Nat → List (String × TEntryKind × Oid) →
    Except GitError (List TreeEntry)
  | 0, _ => .error .fuelExhausted
  | _ + 1, [] => .ok []
  | fuel + 1, (name, kind, oid) :: rest =>
    match kind with
    | .blob =>
      match walkGo store fuel rest with
      | .ok tl => .ok (⟨name, oid, .blob⟩ :: tl)
      | .error e => .error e
    | .commitlink => walkGo store fuel rest
    | .tree =>
      match storeLookup store oid with
      | some (.tree sub) =>
        match walkGo store fuel sub.entries with
        | .error e => .error e
        | .ok subRecs =>
          match walkGo store fuel rest with
          | .error e => .error e
          | .ok tl => .ok (⟨name, oid, .tree⟩ :: (subRecs ++ tl))
      | some _ => .error .corruptObject
      | none => .error .notFound

/-- `traverse_git_repo_commit_tree_recorder` (src/main.rs, lines 321-357):
resolve the commit (argument or HEAD), take its tree and collect the records
of the pre-order walk. -/
def traverse_git_repo_commit_tree_recorder (fuel : Nat) (r : Repository)
    (commitId : Option Oid) : Except GitError (List TreeEntry) :=
  match resolveCommitOpt r commitId with
  | .error e => .error e
  | .ok c =>
    match storeLookup r.store c.tree with
    | some (.tree t) => walkGo r.store fuel t.entries
    | some _ => .error .invalidObject
    | none => .error .notFound

/-- Last element of a list of segments, with a default. -/
def lastD (l : List String) (d : String) : String :=
  match l with
  | [] => d
  | [a] => a
  | _ :: rest => lastD rest d

/-- A record of the specification's walk: the full relative path from the tree
root as a segment list, the identity and the kind. -/
abbrev SpecWalkRec := List String × Oid × TEntryKind

/-- This definition follows the spec's words (section 4.7 `walk`), for comparison
with the source traversal: a pre-order walk over the same stored entry order
that records the FULL relative path of every entry — the path of an entry
reached inside a subdirectory is the segment list from the tree root down to
it, not just its own name. -/
def walkSpecGo (store : Store) : Nat → List String → List (String × TEntryKind × Oid) →
    Except GitError (List SpecWalkRec)
  | 0, _, _ => .error .fuelExhausted
  | _ + 1, _, [] => .ok []
  | fuel + 1, pre, (name, kind, oid) :: rest =>
    match kind with
    | .blob =>
      match walkSpecGo store fuel pre rest with
      | .ok tl => .ok ((pre ++ [name], oid, TEntryKind.blob) :: tl)
      | .error e => .error e
    | .commitlink => walkSpecGo store fuel pre rest
    | .tree =>
      match storeLookup store oid with
      | some (.tree sub) =>
        match walkSpecGo store fuel (pre ++ [name]) sub.entries with
        | .error e => .error e
        | .ok subRecs =>
          match walkSpecGo store fuel pre rest with
          | .error e => .error e
          | .ok tl => .ok ((pre ++ [name], oid, TEntryKind.tree) :: (subRecs ++ tl))
      | some _ => .error .corruptObject
      | none => .error .notFound

/-- The spec's traversal at the wrapper level: same commit resolution as
`traverse_git_repo_commit_tree_recorder`, but recording full relative paths. -/
def traverseSpecFull (fuel : Nat) (r : Repository) (commitId : Option Oid) :
    Except GitError (List SpecWalkRec) :=
  match resolveCommitOpt r commitId with
  | .error e => .error e
  | .ok c =>
    match storeLookup r.store c.tree with
    | some (.tree t) => walkSpecGo r.store fuel [] t.entries
    | some _ => .error .invalidObject
    | none => .error .notFound

/-- Projection of a spec walk record to the record shape the source produces:
keep only the final name segment of the full relative path. -/
def specRecToName (e : SpecWalkRec) : TreeEntry :=
  ⟨lastD e.1 "", e.2.1, e.2.2⟩

/-- Collision-freedom of the content-addressed store at blob identities
(spec section 3, content-addressing invariant): whatever the store holds at the
identity of a blob content is that blob. -/
def StoreBlobConsistent (s : Store) : Prop :=
  ∀ c : String, storeLookup s (blobOid c) = none ∨ storeLookup s (blobOid c) = some (.blob c)

/-- Concrete scenario repository: commit `num 21` ("C1") holds `a.txt`,
commit `num 25` ("C2", child of C1) additionally holds `b.txt`; branch `B`
points at C1, branch `main` at C2; HEAD is on `main`; index and working tree
match C2. -/
def demoRepo : Repository :=
  { store :=
      [(.num 2, .blob "A"), (.num 4, .blob "B"),
       (.num 9, .tree ⟨[("a.txt", .blob, .num 2)]⟩),
       (.num 13, .tree ⟨[("a.txt", .blob, .num 2), ("b.txt", .blob, .num 4)]⟩),
       (.num 21, .commit ⟨.num 9, [], "c1"⟩),
       (.num 25, .commit ⟨.num 13, [.num 21], "c2"⟩)],
    branches := [("B", .num 21), ("main", .num 25)],
    head := .symbolic "main",
    index := [("a.txt", .num 2), ("b.txt", .num 4)],
    workdir := [("a.txt", "A"), ("b.txt", "B")],
    cfg := [("user.name", "TestUser"), ("user.email", "test@example.com")],
    ignoredPaths := [] }

/-- Concrete repository for the traversal claims: commit `num 21` whose root
tree holds the subdirectory `sub` (containing `f.txt`) and the file
`top.txt`. -/
def walkRepo : Repository :=
  { store :=
      [(.num 2, .blob "hi"), (.num 4, .blob "top"),
       (.num 9, .tree ⟨[("f.txt", .blob, .num 2)]⟩),
       (.num 13, .tree ⟨[("sub", .tree, .num 9), ("top.txt", .blob, .num 4)]⟩),
       (.num 21, .commit ⟨.num 13, [], "m"⟩)],
    branches := [],
    head := .detached (.num 21),
    index := [],
    workdir := [],
    cfg := [],
    ignoredPaths := [] }

/-- Concrete repository for the lookup error claim: the root tree of commit
`num 21` names the subtree `x` at identity `num 9`, but the stored object at
`num 9` is corrupted. -/
def lookupRepo : Repository :=
  { store :=
      [(.num 9, .corrupted),
       (.num 13, .tree ⟨[("x", .tree, .num 9)]⟩),
       (.num 21, .commit ⟨.num 13, [], "m"⟩)],
    branches := [],
    head := .detached (.num 21),
    index := [],
    workdir := [],
    cfg := [],
    ignoredPaths := [] }

/-- Concrete repository whose HEAD is an unborn branch: no commit exists yet. -/
def unbornRepo : Repository :=
  { store := [],
    branches := [],
    head := .symbolic "main",
    index := [],
    workdir := [],
    cfg := [("user.name", "TestUser"), ("user.email", "test@example.com")],
    ignoredPaths := [] }

/-- Concrete repository for the staging claim: `a.txt` exists on disk and is
not yet staged, `gone.txt` is staged but no longer exists on disk. -/
def stageRepo : Repository :=
  { store := [],
    branches := [],
    head := .detached (.num 0),
    index := [("gone.txt", .num 2)],
    workdir := [("a.txt", "A")],
    cfg := [],
    ignoredPaths := [] }

/-- Conclusion of the staging claim for one path: after the call, the index
entry of the path mirrors its working-tree presence (blob identity of its
content when on disk, no entry when absent), and the blob of an on-disk path
is present in the object store. -/
def StagedPathProp (r : Repository) (ps : List String) (p : String) : Prop :=
  alookup (add_files_to_git_repo_index r ps).index p
      = (alookup r.workdir p).map (fun c => blobOid c)
  ∧ ∀ c, alookup r.workdir p = some c →
      storeLookup (add_files_to_git_repo_index r ps).store (blobOid c)
        = some (.blob c)

/-- Conclusion of the commit-parent claim: the new identity is the digest of a
commit carrying the requested message whose parent list is empty exactly when
HEAD was unresolvable, and is the singleton of the commit HEAD resolved to
otherwise. -/
def CommitParentsProp (r : Repository) (msg : String) (cid : Oid) : Prop :=
  ∃ c : CommitObj, cid = commitOid c ∧ c.message = msg
    ∧ (match resolveHead r with
       | none => c.parents = []
       | some p => c.parents = [p])
    ∧ (c.parents = [] ↔ resolveHead r = none)

/-- Conclusion of the amended lookup claim: once the commit and its root tree
resolve, the lookup never surfaces an error — it answers the entry on a
successful descent and the empty result on ANY descent failure — and an
absent first segment in particular yields the empty result. -/
def LookupSwallowProp (r : Repository) (co : Oid) (path : String) (t : TreeObj) : Prop :=
  (lookup_entry_from_git_repo_commit_tree_by_path r (some co) path
     = .ok (match treeGetPath r.store t (splitPath path) with
            | .ok ko => some ⟨path, ko.2, ko.1⟩
            | .error _ => none))
  ∧ (∀ s rest, splitPath path = s :: rest → alookup t.entries s = none →
      lookup_entry_from_git_repo_commit_tree_by_path r (some co) path = .ok none)

/-- Conclusion of the restore frame claim: everything except the working tree
is unchanged — HEAD, branches, index, store, config, and the identity HEAD
resolves to — and the working tree now holds the content of the tree of the
commit HEAD resolves to. -/
def RestoreFrameProp (fuel : Nat) (r r' : Repository) : Prop :=
  r'.head = r.head ∧ r'.branches = r.branches ∧ r'.index = r.index
  ∧ r'.store = r.store ∧ r'.cfg = r.cfg
  ∧ resolveHead r' = resolveHead r
  ∧ ∃ href c t m, r.headRef = .ok href
      ∧ storeLookup r.store href.target = some (.commit c)
      ∧ storeLookup r.store c.tree = some (.tree t)
      ∧ flattenTreeContent r.store fuel "" t.entries = .ok m
      ∧ ∀ p cnt, alookup m p = some cnt → alookup r'.workdir p = some cnt

/-- Conclusion of the config idempotence claim: the reported flag is `false`
exactly when the stored value already equals the requested one, in which case
nothing is written; afterwards the key holds the value, so an immediately
repeated identical call writes nothing and reports `false`. -/
def KvConfigProp (cfg : List (String × String)) (n v : String)
    (c1 : List (String × String)) (b : Bool) : Prop :=
  (b = false ↔ alookup cfg n = some v)
  ∧ (b = false → c1 = cfg)
  ∧ alookup c1 n = some v
  ∧ config_git_repo_kv_str c1 n v = (c1, false)

/-! ### Helper lemmas -/

theorem alookup_aupdate_self {κ α : Type} [DecidableEq κ]
    (l : List (κ × α)) (k : κ) (v : α) : alookup (aupdate l k v) k = some v := by
  induction l with
  | nil => simp [aupdate, alookup]
  | cons e rest ih =>
    by_cases h : e.1 = k
    · simp [aupdate, h, alookup]
    · simp [aupdate, h, alookup, ih]

theorem alookup_aupdate_ne {κ α : Type} [DecidableEq κ]
    (l : List (κ × α)) (k k' : κ) (v : α) (h : k' ≠ k) :
    alookup (aupdate l k v) k' = alookup l k' := by
  induction l with
  | nil =>
    simp only [aupdate, alookup]
    rw [if_neg (fun hk : k = k' => h hk.symm)]
  | cons e rest ih =>
    by_cases he : e.1 = k
    · simp only [aupdate, if_pos he, alookup]
      rw [if_neg (fun hk : k = k' => h hk.symm),
        if_neg (fun hk : e.1 = k' => h (hk.symm.trans he))]
    · simp only [aupdate, if_neg he, alookup, ih]

theorem alookup_aremove_self {κ α : Type} [DecidableEq κ]
    (l : List (κ × α)) (k : κ) : alookup (aremove l k) k = none := by
  induction l with
  | nil => simp [aremove, alookup]
  | cons e rest ih =>
    by_cases h : e.1 = k
    · simp [aremove, h, ih]
    · simp [aremove, h, alookup, ih]

theorem alookup_aremove_ne {κ α : Type} [DecidableEq κ]
    (l : List (κ × α)) (k k' : κ) (h : k' ≠ k) :
    alookup (aremove l k) k' = alookup l k' := by
  induction l with
  | nil => simp [aremove]
  | cons e rest ih =>
    by_cases he : e.1 = k
    · simp only [aremove, if_pos he, alookup, ih]
      rw [if_neg (fun hk : e.1 = k' => h (hk.symm.trans he))]
    · simp only [aremove, if_neg he, alookup, ih]

theorem alookup_append_some {κ α : Type} [DecidableEq κ]
    (l1 l2 : List (κ × α)) (k : κ) (v : α) (h : alookup l1 k = some v) :
    alookup (l1 ++ l2) k = some v := by
  induction l1 with
  | nil => simp [alookup] at h
  | cons e rest ih =>
    by_cases he : e.1 = k
    · simp [alookup, he] at h ⊢
      exact h
    · simp [alookup, he] at h ⊢
      exact ih h

theorem storeLookup_putObj_mono (s : Store) (o o' : Oid) (x y : StoreObj)
    (h : storeLookup s o = some x) :
    storeLookup (putObj s o' y) o = some x := by
  unfold putObj
  cases hl : storeLookup s o' with
  | some z => exact h
  | none =>
    have hne : o' ≠ o := by
      intro he
      rw [he, h] at hl
      cases hl
    show storeLookup ((o', y) :: s) o = some x
    simp only [storeLookup, alookup, if_neg hne]
    exact h

theorem storeLookup_putObj_fresh (s : Store) (o : Oid) (y : StoreObj)
    (h : storeLookup s o = none) :
    storeLookup (putObj s o y) o = some y := by
  simp only [putObj, h]
  simp [storeLookup, alookup]

theorem lastD_append (l : List String) (a d : String) :
    lastD (l ++ [a]) d = a := by
  induction l with
  | nil => simp [lastD]
  | cons x rest ih =>
    cases hr : rest ++ [a] with
    | nil => exact absurd hr (by simp)
    | cons y ys =>
      simp only [List.cons_append, hr, lastD]
      rw [← hr, ih]

theorem except_toOption_eq_some {ε α : Type} (x : Except ε α) (a : α)
    (h : x.toOption = some a) : x = .ok a := by
  cases x with
  | ok b => simp [Except.toOption] at h; rw [h]
  | error e => simp [Except.toOption] at h

/-! ### Staging lemmas -/

theorem stageOne_workdir (r : Repository) (p : String) :
    (stageOne r p).workdir = r.workdir := by
  unfold stageOne
  cases alookup r.workdir p with
  | some c => rfl
  | none =>
    cases alookup r.index p with
    | some o => rfl
    | none => rfl

theorem stageOne_index_self (r : Repository) (p : String) :
    alookup (stageOne r p).index p
      = (alookup r.workdir p).map (fun c => blobOid c) := by
  unfold stageOne
  cases hw : alookup r.workdir p with
  | some c => simp [alookup_aupdate_self]
  | none =>
    cases hi : alookup r.index p with
    | some o => simp [alookup_aremove_self]
    | none => simp [hi]

theorem stageOne_index_ne (r : Repository) (p q : String) (h : p ≠ q) :
    alookup (stageOne r q).index p = alookup r.index p := by
  unfold stageOne
  cases hw : alookup r.workdir q with
  | some c => exact alookup_aupdate_ne _ _ _ _ h
  | none =>
    cases hi : alookup r.index q with
    | some o => exact alookup_aremove_ne _ _ _ h
    | none => rfl

theorem stageOne_store_mono (r : Repository) (q : String) (o : Oid) (x : StoreObj)
    (h : storeLookup r.store o = some x) :
    storeLookup (stageOne r q).store o = some x := by
  unfold stageOne
  cases hw : alookup r.workdir q with
  | some c => exact storeLookup_putObj_mono _ _ _ _ _ h
  | none =>
    cases hi : alookup r.index q with
    | some o2 => exact h
    | none => exact h

theorem stageOne_consistent (r : Repository) (q : String)
    (h : StoreBlobConsistent r.store) : StoreBlobConsistent (stageOne r q).store := by
  unfold stageOne
  cases hw : alookup r.workdir q with
  | none =>
    cases hi : alookup r.index q with
    | some o => exact h
    | none => exact h
  | some content =>
    intro c
    show storeLookup (putObj r.store (blobOid content) (.blob content)) (blobOid c) = none
      ∨ storeLookup (putObj r.store (blobOid content) (.blob content)) (blobOid c)
          = some (.blob c)
    unfold putObj
    cases hl : storeLookup r.store (blobOid content) with
    | some z => exact h c
    | none =>
      by_cases hco : content = c
      · subst hco
        right
        simp [storeLookup, alookup]
      · have hne : blobOid content ≠ blobOid c := by
          simp only [blobOid, ne_eq, Oid.blobId.injEq]
          exact hco
        have hpass :
            storeLookup ((blobOid content, StoreObj.blob content) :: r.store) (blobOid c)
              = storeLookup r.store (blobOid c) := by
          simp [storeLookup, alookup, hne]
        rw [hpass]
        exact h c

theorem stageOne_store_blob (r : Repository) (p c : String)
    (hcons : StoreBlobConsistent r.store) (hw : alookup r.workdir p = some c) :
    storeLookup (stageOne r p).store (blobOid c) = some (.blob c) := by
  unfold stageOne
  rw [hw]
  show storeLookup (putObj r.store (blobOid c) (StoreObj.blob c)) (blobOid c)
    = some (StoreObj.blob c)
  rcases hcons c with hnone | hsome
  · exact storeLookup_putObj_fresh _ _ _ hnone
  · unfold putObj
    rw [hsome]
    exact hsome

theorem add_files_workdir : ∀ (ps : List String) (r : Repository),
    (add_files_to_git_repo_index r ps).workdir = r.workdir := by
  intro ps
  induction ps with
  | nil => intro r; rfl
  | cons p rest ih =>
    intro r
    simp only [add_files_to_git_repo_index]
    rw [ih, stageOne_workdir]

theorem add_files_consistent : ∀ (ps : List String) (r : Repository),
    StoreBlobConsistent r.store →
    StoreBlobConsistent (add_files_to_git_repo_index r ps).store := by
  intro ps
  induction ps with
  | nil => intro r h; exact h
  | cons p rest ih =>
    intro r h
    simp only [add_files_to_git_repo_index]
    exact ih _ (stageOne_consistent r p h)

theorem add_files_store_mono : ∀ (ps : List String) (r : Repository) (o : Oid) (x : StoreObj),
    storeLookup r.store o = some x →
    storeLookup (add_files_to_git_repo_index r ps).store o = some x := by
  intro ps
  induction ps with
  | nil => intro r o x h; exact h
  | cons p rest ih =>
    intro r o x h
    simp only [add_files_to_git_repo_index]
    exact ih _ _ _ (stageOne_store_mono r p o x h)

theorem add_files_index_not_mem : ∀ (ps : List String) (r : Repository) (p : String),
    p ∉ ps → alookup (add_files_to_git_repo_index r ps).index p = alookup r.index p := by
  intro ps
  induction ps with
  | nil => intro r p _; rfl
  | cons q rest ih =>
    intro r p h
    have hpq : p ≠ q := fun he => h (he ▸ List.Mem.head rest)
    have hpr : p ∉ rest := fun hm => h (List.Mem.tail q hm)
    simp only [add_files_to_git_repo_index]
    rw [ih _ _ hpr, stageOne_index_ne _ _ _ hpq]

/-! ### Traversal lemma: the source walk is the spec walk with each full
relative path projected to its final name segment -/

theorem walkGo_eq_walkSpec (store : Store) :
    ∀ (fuel : Nat) (pre : List String) (entries : List (String × TEntryKind × Oid)),
      walkGo store fuel entries
        = (walkSpecGo store fuel pre entries).map (List.map specRecToName) := by
  intro fuel
  induction fuel with
  | zero => intro pre entries; simp [walkGo, walkSpecGo, Except.map]
  | succ f ih =>
    intro pre entries
    cases entries with
    | nil => simp [walkGo, walkSpecGo, Except.map]
    | cons e rest =>
      obtain ⟨name, kind, oid⟩ := e
      cases kind with
      | blob =>
        simp only [walkGo, walkSpecGo]
        rw [ih pre rest]
        cases hs : walkSpecGo store f pre rest with
        | ok tl => simp [Except.map, specRecToName, lastD_append]
        | error e2 => simp [Except.map]
      | commitlink =>
        simp only [walkGo, walkSpecGo]
        exact ih pre rest
      | tree =>
        simp only [walkGo, walkSpecGo]
        cases hl : storeLookup store oid with
        | none => simp [Except.map]
        | some obj =>
          cases obj with
          | tree sub =>
            dsimp only
            rw [ih (pre ++ [name]) sub.entries, ih pre rest]
            cases h1 : walkSpecGo store f (pre ++ [name]) sub.entries with
            | error e2 => simp [Except.map]
            | ok subRecs =>
              cases h2 : walkSpecGo store f pre rest with
              | error e2 => simp [Except.map]
              | ok tl => simp [Except.map, specRecToName, lastD_append]
          | blob c => simp [Except.map]
          | commit c => simp [Except.map]
          | corrupted => simp [Except.map]

/-! ### Claim theorems -/

/-- C1: evaluation of `reset_git_repo_head` at a repository whose HEAD is the
symbolic reference to branch `main` (pointing at commit `num 25`) and whose
store also holds commit `num 21`: the reset succeeds and rewrites the index
and the working tree to commit `num 21`'s tree, but HEAD comes out DETACHED at
`num 21` while branch `main` still points at `num 25` — the branch is not
moved and HEAD no longer resolves through it, because `repo.head()` returns
the already resolved direct reference and the Symbolic arm of the source's
match never fires. -/
theorem C1_reset_detaches_head_on_branch :
    reset_git_repo_head 100 demoRepo (.num 21)
      = .ok { demoRepo with
              head := .detached (.num 21),
              index := [("a.txt", .num 2)],
              workdir := [("a.txt", "A")] }
    ∧ demoRepo.head = .symbolic "main"
    ∧ alookup demoRepo.branches "main" = some (.num 25) := by decide

/-- C6: the branch scenario.  In `demoRepo`, commit `num 21` (C1) holds
`a.txt`, branch `B` points at it, and commit `num 25` (C2, child of C1) on
branch `main` adds `b.txt`.  Switching to `B` with working-tree sync leaves
`a.txt` present and `b.txt` absent; switching back to `main` restores
`b.txt`. -/
theorem C6_branch_switch_scenario :
    (((switch_git_repo_branch 100 demoRepo "B" true).toOption.map
        (fun pr => (alookup pr.2.workdir "a.txt", alookup pr.2.workdir "b.txt")))
      = some (some "A", none))
    ∧ ((((switch_git_repo_branch 100 demoRepo "B" true).bind
          (fun pr => switch_git_repo_branch 100 pr.2 "main" true)).toOption.map
        (fun pr => (alookup pr.2.workdir "a.txt", alookup pr.2.workdir "b.txt")))
      = some (some "A", some "B")) := by decide

/-- C8: `open_or_init_git_repo` opens without modifying the directory when a
`.git` subdirectory exists, and otherwise deletes the whole existing directory
tree before initializing a fresh repository with initial head "main". -/
theorem C8_open_or_init_policy : ∀ d : DirState,
    (d.hasGit = true → open_or_init_git_repo d = (d, .opened))
    ∧ (d.present = true → d.hasGit = false →
        open_or_init_git_repo d = (⟨true, true, 0⟩, .freshInit "main")) := by
  intro d
  constructor
  · intro h
    simp [open_or_init_git_repo, h]
  · intro hp hg
    simp [open_or_init_git_repo, hg]

/-- Witness for C8: both branches of the policy at concrete directory states. -/
theorem C8_open_or_init_policy_witness :
    open_or_init_git_repo ⟨true, true, 3⟩ = (⟨true, true, 3⟩, .opened)
    ∧ open_or_init_git_repo ⟨true, false, 3⟩ = (⟨true, true, 0⟩, .freshInit "main") :=
  ⟨(C8_open_or_init_policy ⟨true, true, 3⟩).1 rfl,
   (C8_open_or_init_policy ⟨true, false, 3⟩).2 rfl rfl⟩

/-- C9: switching to an existing branch with `update_workdir = false` only
re-points HEAD at that branch symbolically: the returned repository is the
input with just the `head` field changed, so the working tree, the index, the
store and all references are untouched, and the returned reference is the
branch reference. -/
theorem C9_switch_no_workdir_only_head :
    ∀ (fuel : Nat) (r : Repository) (b : String) (oid : Oid),
      alookup r.branches b = some oid →
      switch_git_repo_branch fuel r b false
        = .ok (⟨"refs/heads/" ++ b, .direct, oid⟩, { r with head := HeadRef.symbolic b }) := by
  intro fuel r b oid h
  simp [switch_git_repo_branch, h]

/-- Witness for C9: switching `demoRepo` to branch `B` without touching the
working tree. -/
theorem C9_switch_no_workdir_only_head_witness :
    switch_git_repo_branch 0 demoRepo "B" false
      = .ok (⟨"refs/heads/" ++ "B", .direct, .num 21⟩,
             { demoRepo with head := HeadRef.symbolic "B" }) :=
  C9_switch_no_workdir_only_head 0 demoRepo "B" (.num 21) (by decide)

/-- C2 counterexample: a genuine store error is mapped to the empty result,
not propagated.  In `lookupRepo` the root tree names subtree `x` at `num 9`,
whose stored object is corrupted: the descent fails with `corruptObject`, yet
the lookup wrapper answers `.ok none` — the claim that corrupted/missing
objects met during lookup propagate as errors is false on this input. -/
theorem C2_store_error_swallowed_cex :
    treeGetPath lookupRepo.store ⟨[("x", .tree, .num 9)]⟩ (splitPath "x/f.txt")
      = .error .corruptObject
    ∧ storeLookup lookupRepo.store (Oid.num 9) = some .corrupted
    ∧ lookup_entry_from_git_repo_commit_tree_by_path lookupRepo (some (.num 21)) "x/f.txt"
      = .ok none := by decide

/-- C2 (amended): once the commit and its root tree resolve, the lookup never
surfaces an error: a successful descent yields the entry, an absent segment
yields the empty result, and EVERY descent failure — including genuine store
errors — is likewise mapped to the empty result. -/
theorem C2_lookup_amended :
    ∀ (r : Repository) (co : Oid) (path : String) (c : CommitObj) (t : TreeObj),
      findCommit r co = .ok c →
      storeLookup r.store c.tree = some (.tree t) →
      LookupSwallowProp r co path t := by
  intro r co path c t hc ht
  have hres : resolveCommitOpt r (some co) = .ok c := by
    simp [resolveCommitOpt, hc]
  constructor
  · simp only [lookup_entry_from_git_repo_commit_tree_by_path, hres, ht]
    cases hg : treeGetPath r.store t (splitPath path) with
    | ok ko => rfl
    | error e => rfl
  · intro s rest hsplit halo
    have hget : treeGetPath r.store t (s :: rest) = .error .notFound := by
      cases rest with
      | nil => simp [treeGetPath, halo]
      | cons s2 r2 => simp [treeGetPath, halo]
    simp only [lookup_entry_from_git_repo_commit_tree_by_path, hres, ht, hsplit, hget]

/-- Witness for C2 (amended): in `walkRepo`, commit `num 21` and its root tree
resolve, and looking up the absent path `sub/missing.txt` yields the empty
result. -/
theorem C2_lookup_amended_witness :
    findCommit walkRepo (.num 21) = .ok ⟨.num 13, [], "m"⟩
    ∧ storeLookup walkRepo.store (Oid.num 13)
        = some (.tree ⟨[("sub", .tree, .num 9), ("top.txt", .blob, .num 4)]⟩)
    ∧ LookupSwallowProp walkRepo (.num 21) "sub/missing.txt"
        ⟨[("sub", .tree, .num 9), ("top.txt", .blob, .num 4)]⟩ :=
  ⟨by decide, by decide,
   C2_lookup_amended walkRepo (.num 21) "sub/missing.txt" ⟨.num 13, [], "m"⟩
     ⟨[("sub", .tree, .num 9), ("top.txt", .blob, .num 4)]⟩ (by decide) (by decide)⟩

/-- C3 counterexample: the traversal records only the entry's own name
segment, not its full relative path.  In `walkRepo`, the file `f.txt` nested
in subdirectory `sub` is recorded with `relative_path = "f.txt"`, while its
full relative path from the tree root is `"sub/f.txt"` (as the spec-side walk
shows); the claim that nested entries carry their full relative path is false
on this input. -/
theorem C3_records_name_only_cex :
    traverse_git_repo_commit_tree_recorder 100 walkRepo (some (.num 21))
      = .ok [⟨"sub", .num 9, .tree⟩, ⟨"f.txt", .num 2, .blob⟩,
             ⟨"top.txt", .num 4, .blob⟩]
    ∧ traverseSpecFull 100 walkRepo (some (.num 21))
      = .ok [(["sub"], .num 9, .tree), (["sub", "f.txt"], .num 2, .blob),
             (["top.txt"], .num 4, .blob)]
    ∧ ("f.txt" : String) ≠ "sub/f.txt" := by decide

/-- C3 (amended): the traversal is exactly the spec's pre-order walk — same
visit order (pre-order, children in the tree's stored, canonically sorted,
entry order) and same identities and kinds — except that each record holds
only the final name segment of the spec's full relative path. -/
theorem C3_walk_amended : ∀ (fuel : Nat) (r : Repository) (co : Option Oid),
    traverse_git_repo_commit_tree_recorder fuel r co
      = (traverseSpecFull fuel r co).map (List.map specRecToName) := by
  intro fuel r co
  unfold traverse_git_repo_commit_tree_recorder traverseSpecFull
  cases hres : resolveCommitOpt r co with
  | error e => simp [Except.map]
  | ok c =>
    dsimp only
    cases hl : storeLookup r.store c.tree with
    | none => simp [Except.map]
    | some obj =>
      cases obj with
      | tree t =>
        dsimp only
        exact walkGo_eq_walkSpec r.store fuel [] t.entries
      | blob b => simp [Except.map]
      | commit c2 => simp [Except.map]
      | corrupted => simp [Except.map]

/-- C10: setting a config key is idempotent on repetition: the flag is `false`
exactly when the stored value already equals the requested one (in which case
nothing is written), the key holds the value afterwards, and an immediately
repeated identical call writes nothing and reports `false`. -/
theorem C10_config_set_idempotent :
    ∀ (cfg : List (String × String)) (n v : String)
      (c1 : List (String × String)) (b : Bool),
      config_git_repo_kv_str cfg n v = (c1, b) → KvConfigProp cfg n v c1 b := by
  intro cfg n v c1 b h
  unfold config_git_repo_kv_str at h
  cases halo : alookup cfg n with
  | none =>
    rw [halo] at h
    simp at h
    obtain ⟨hc, hb⟩ := h
    subst hc
    subst hb
    unfold KvConfigProp
    refine ⟨?_, ?_, ?_, ?_⟩
    · simp [halo]
    · intro hx
      simp at hx
    · exact alookup_aupdate_self cfg n v
    · unfold config_git_repo_kv_str
      rw [alookup_aupdate_self]
      simp
  | some old =>
    rw [halo] at h
    by_cases hov : old = v
    · subst hov
      simp at h
      obtain ⟨hc, hb⟩ := h
      subst hc
      subst hb
      unfold KvConfigProp
      refine ⟨?_, ?_, ?_, ?_⟩
      · simp [halo]
      · intro hx
        rfl
      · exact halo
      · unfold config_git_repo_kv_str
        rw [halo]
        simp
    · simp [hov] at h
      obtain ⟨hc, hb⟩ := h
      subst hc
      subst hb
      unfold KvConfigProp
      refine ⟨?_, ?_, ?_, ?_⟩
      · simp [halo, hov]
      · intro hx
        simp at hx
      · exact alookup_aupdate_self cfg n v
      · unfold config_git_repo_kv_str
        rw [alookup_aupdate_self]
        simp

/-- Witness for C10: a fresh write reports `true`, and the immediate identical
repeat reports `false` with no change. -/
theorem C10_config_set_idempotent_witness :
    KvConfigProp [] "user.name" "TestUser" [("user.name", "TestUser")] true :=
  C10_config_set_idempotent [] "user.name" "TestUser" [("user.name", "TestUser")] true
    (by decide)

/-- C4: a successful commit creates a commit whose parent list is empty
exactly when HEAD was unresolvable (the very first commit), and otherwise is
the singleton of the commit HEAD resolves to. -/
theorem C4_commit_parent_policy :
    ∀ (r : Repository) (msg : String) (cid : Oid) (r' : Repository),
      commit_index_to_git_repo r msg = .ok (cid, r') →
      CommitParentsProp r msg cid := by
  intro r msg cid r' h
  unfold commit_index_to_git_repo at h
  dsimp only at h
  cases hst : storeLookup (writeIndexTree r).2 (writeIndexTree r).1 with
  | none =>
    rw [hst] at h
    simp at h
  | some obj =>
    rw [hst] at h
    cases obj with
    | blob c0 => simp at h
    | commit c0 => simp at h
    | corrupted => simp at h
    | tree tO =>
      dsimp only at h
      cases hn : alookup r.cfg "user.name" with
      | none =>
        rw [hn] at h
        simp at h
      | some nm =>
        rw [hn] at h
        cases he : alookup r.cfg "user.email" with
        | none =>
          rw [he] at h
          simp at h
        | some em =>
          rw [he] at h
          dsimp only at h
          cases hh : r.headRef with
          | error e0 =>
            rw [hh] at h
            dsimp only at h
            have hres : resolveHead r = none := by simp [resolveHead, hh]
            cases hhead : r.head with
            | symbolic b =>
              rw [hhead] at h
              simp only [Except.ok.injEq, Prod.mk.injEq] at h
              exact ⟨⟨(writeIndexTree r).1, [], msg⟩, h.1.symm, rfl,
                by simp [hres], by simp [hres]⟩
            | detached o0 =>
              rw [hhead] at h
              simp only [Except.ok.injEq, Prod.mk.injEq] at h
              exact ⟨⟨(writeIndexTree r).1, [], msg⟩, h.1.symm, rfl,
                by simp [hres], by simp [hres]⟩
          | ok href =>
            rw [hh] at h
            dsimp only at h
            cases hpt : storeLookup (writeIndexTree r).2 href.target with
            | none =>
              rw [hpt] at h
              simp at h
            | some pobj =>
              rw [hpt] at h
              cases pobj with
              | blob c0 => simp at h
              | tree t0 => simp at h
              | corrupted => simp at h
              | commit pc =>
                dsimp only at h
                have hres : resolveHead r = some href.target := by
                  simp [resolveHead, hh]
                cases hhead : r.head with
                | symbolic b =>
                  rw [hhead] at h
                  simp only [Except.ok.injEq, Prod.mk.injEq] at h
                  exact ⟨⟨(writeIndexTree r).1, [href.target], msg⟩, h.1.symm, rfl,
                    by simp [hres], by simp [hres]⟩
                | detached o0 =>
                  rw [hhead] at h
                  simp only [Except.ok.injEq, Prod.mk.injEq] at h
                  exact ⟨⟨(writeIndexTree r).1, [href.target], msg⟩, h.1.symm, rfl,
                    by simp [hres], by simp [hres]⟩

/-- Witness for C4: both branches of the parent policy — the very first commit
of `unbornRepo` (HEAD unresolvable, no parent) and a commit in `demoRepo`
(HEAD resolves, single parent). -/
theorem C4_commit_parent_policy_witness :
    (∃ pr : Oid × Repository, commit_index_to_git_repo unbornRepo "first" = .ok pr
      ∧ CommitParentsProp unbornRepo "first" pr.1)
    ∧ (∃ pr : Oid × Repository, commit_index_to_git_repo demoRepo "next" = .ok pr
      ∧ CommitParentsProp demoRepo "next" pr.1) := by
  constructor
  · obtain ⟨pr, hpr⟩ := Option.isSome_iff_exists.mp
      (show (commit_index_to_git_repo unbornRepo "first").toOption.isSome = true by decide)
    have hok := except_toOption_eq_some _ _ hpr
    exact ⟨pr, hok,
      C4_commit_parent_policy unbornRepo "first" pr.1 pr.2 (by rw [hok])⟩
  · obtain ⟨pr, hpr⟩ := Option.isSome_iff_exists.mp
      (show (commit_index_to_git_repo demoRepo "next").toOption.isSome = true by decide)
    have hok := except_toOption_eq_some _ _ hpr
    exact ⟨pr, hok,
      C4_commit_parent_policy demoRepo "next" pr.1 pr.2 (by rw [hok])⟩

/-- C5: staging a list of paths upserts the index entry (and stores the blob)
of every path present in the working tree and removes the index entry of every
path absent from it, silently ignoring absent paths that were never staged —
the call is total, so it always succeeds. -/
theorem C5_stage_upsert_remove :
    ∀ (ps : List String) (r : Repository) (p : String),
      StoreBlobConsistent r.store → p ∈ ps → StagedPathProp r ps p := by
  intro ps
  induction ps with
  | nil =>
    intro r p hcons hmem
    cases hmem
  | cons q rest ih =>
    intro r p hcons hmem
    by_cases hpr : p ∈ rest
    · have h2 := ih (stageOne r q) p (stageOne_consistent r q hcons) hpr
      unfold StagedPathProp at h2 ⊢
      simp only [add_files_to_git_repo_index]
      rw [stageOne_workdir] at h2
      exact h2
    · have hpq : p = q := by
        cases hmem with
        | head => rfl
        | tail _ hm => exact absurd hm hpr
      subst hpq
      unfold StagedPathProp
      simp only [add_files_to_git_repo_index]
      constructor
      · rw [add_files_index_not_mem rest (stageOne r p) p hpr, stageOne_index_self]
      · intro c hw
        exact add_files_store_mono rest (stageOne r p) _ _
          (stageOne_store_blob r p c hcons hw)

/-- Witness for C5: in `stageRepo`, staging `a.txt` (present on disk) together
with `gone.txt` (absent, previously staged): `a.txt` gets its blob identity in
the index and the blob in the store, `gone.txt` is removed from the index. -/
theorem C5_stage_upsert_remove_witness :
    StoreBlobConsistent stageRepo.store
    ∧ StagedPathProp stageRepo ["a.txt", "gone.txt"] "a.txt"
    ∧ StagedPathProp stageRepo ["a.txt", "gone.txt"] "gone.txt" :=
  ⟨fun c => Or.inl rfl,
   C5_stage_upsert_remove ["a.txt", "gone.txt"] stageRepo "a.txt"
     (fun c => Or.inl rfl) (by decide),
   C5_stage_upsert_remove ["a.txt", "gone.txt"] stageRepo "gone.txt"
     (fun c => Or.inl rfl) (by decide)⟩

/-- C7: a successful restore changes nothing but the working tree — HEAD, all
references, the index, the store and the config are unchanged, the identity
HEAD resolves to is unchanged — and the working tree is rewritten to the
content of the tree of the commit HEAD resolves to. -/
theorem C7_restore_keeps_refs :
    ∀ (fuel : Nat) (r r' : Repository),
      restore_git_repo_head_to_workdir fuel r = .ok r' →
      RestoreFrameProp fuel r r' := by
  intro fuel r r' h
  unfold restore_git_repo_head_to_workdir at h
  cases hh : r.headRef with
  | error e =>
    rw [hh] at h
    simp at h
  | ok href =>
    rw [hh] at h
    dsimp only at h
    cases hpc : storeLookup r.store href.target with
    | none =>
      rw [hpc] at h
      simp at h
    | some obj =>
      rw [hpc] at h
      cases obj with
      | blob c0 => simp at h
      | tree t0 => simp at h
      | corrupted => simp at h
      | commit c =>
        dsimp only at h
        cases hct : storeLookup r.store c.tree with
        | none =>
          rw [hct] at h
          simp at h
        | some obj2 =>
          rw [hct] at h
          cases obj2 with
          | blob c0 => simp at h
          | commit c0 => simp at h
          | corrupted => simp at h
          | tree t =>
            dsimp only at h
            unfold checkout_tree at h
            cases hfl : flattenTreeContent r.store fuel "" t.entries with
            | error e =>
              rw [hfl] at h
              simp at h
            | ok m =>
              rw [hfl] at h
              dsimp only at h
              rw [Except.ok.injEq] at h
              subst h
              unfold RestoreFrameProp
              refine ⟨rfl, rfl, rfl, rfl, rfl, rfl, href, c, t, m, hh, hpc, hct, hfl, ?_⟩
              intro p cnt hm
              exact alookup_append_some _ _ _ _ hm

/-- Witness for C7: restoring `demoRepo` succeeds (and is in fact the
identity there, its working tree already matching HEAD's tree). -/
theorem C7_restore_keeps_refs_witness :
    restore_git_repo_head_to_workdir 100 demoRepo = .ok demoRepo
    ∧ RestoreFrameProp 100 demoRepo demoRepo :=
  ⟨by decide, C7_restore_keeps_refs 100 demoRepo demoRepo (by decide)⟩

end GitDemo
